import Mathlib

/-!
Verification of the canyons signal/trigger/scheduling core.

Shallow embedding conventions:
* JS numbers are modelled as rationals (`ℚ`).  Where the source explicitly
  handles IEEE NaN (`Number.isNaN` checks, `values[NaN]`, `x % 0`), the value
  is modelled as `Option ℚ` with `none` standing for NaN / `undefined`.
* The JS remainder operator `%` on finite numbers is `x - m * trunc (x / m)`
  (truncated division); `jsRem` below models it for a nonzero modulus.
* Stateful classes (`Stream`, `Engine`, `MidiOutput`) are modelled by explicit
  state passing: a method becomes a function `State → args → result × State`,
  and externally visible side effects (note-off messages, voice releases)
  are returned as event lists.
-/

namespace Canyons

/-- A JS number that may be NaN: `none` models NaN (or `undefined`). -/
abbrev JsNum := Option ℚ

/-- Truncation toward zero, as JS division underlying `%` truncates. -/
def jsTrunc (q : ℚ) : ℤ := if 0 ≤ q then ⌊q⌋ else ⌈q⌉

/-- The JS `%` operator on finite numbers with nonzero modulus:
`x % m = x - m * trunc (x / m)` (result has the sign of the dividend). -/
def jsRem (x m : ℚ) : ℚ := x - m * (jsTrunc (x / m) : ℚ)

/-- `Signal` (src/core/signal.ts): wraps a pure function of time. -/
structure Signal where
  fn : ℚ → ℚ

/-- `Signal.eval`: evaluate the signal at time t. -/
def Signal.eval (s : Signal) (t : ℚ) : ℚ := s.fn t

/-- A plain number argument is resolved by `toVal` to a constant;
we model the `number | Signal` union by lifting numbers with `const`. -/
def Signal.const (c : ℚ) : Signal := ⟨fun _ => c⟩

/-- `Signal.mul`. -/
def Signal.mul (s x : Signal) : Signal := ⟨fun t => s.eval t * x.eval t⟩

/-- `Signal.add`. -/
def Signal.add (s x : Signal) : Signal := ⟨fun t => s.eval t + x.eval t⟩

/-- `Signal.sub`. -/
def Signal.sub (s x : Signal) : Signal := ⟨fun t => s.eval t - x.eval t⟩

/-- `Signal.mod`: `((val % m) + m) % m` — "proper modulo for negatives". -/
def Signal.mod (s x : Signal) : Signal :=
  ⟨fun t => jsRem (jsRem (s.eval t) (x.eval t) + x.eval t) (x.eval t)⟩

/-- `Signal.floor` (`Math.floor`). -/
def Signal.floor (s : Signal) : Signal := ⟨fun t => (⌊s.eval t⌋ : ℚ)⟩

/-- `Signal.ceil` (`Math.ceil`). -/
def Signal.ceil (s : Signal) : Signal := ⟨fun t => (⌈s.eval t⌉ : ℚ)⟩

/-- `Signal.abs` (`Math.abs`). -/
def Signal.abs (s : Signal) : Signal := ⟨fun t => |s.eval t|⟩

/-- `Signal.lt`: returns exactly 0 or 1. -/
def Signal.lt (s x : Signal) : Signal :=
  ⟨fun t => if s.eval t < x.eval t then 1 else 0⟩

/-- `Signal.gt`. -/
def Signal.gt (s x : Signal) : Signal :=
  ⟨fun t => if s.eval t > x.eval t then 1 else 0⟩

/-- `Signal.lte`. -/
def Signal.lte (s x : Signal) : Signal :=
  ⟨fun t => if s.eval t ≤ x.eval t then 1 else 0⟩

/-- `Signal.gte`. -/
def Signal.gte (s x : Signal) : Signal :=
  ⟨fun t => if s.eval t ≥ x.eval t then 1 else 0⟩

/-- `Signal.min` (`Math.min`). -/
def Signal.minS (s x : Signal) : Signal := ⟨fun t => min (s.eval t) (x.eval t)⟩

/-- `Signal.max` (`Math.max`). -/
def Signal.maxS (s x : Signal) : Signal := ⟨fun t => max (s.eval t) (x.eval t)⟩

/-- `Signal.clamp(lo, hi) = this.max(lo).min(hi)`. -/
def Signal.clamp (s : Signal) (lo hi : ℚ) : Signal :=
  (s.maxS (Signal.const lo)).minS (Signal.const hi)

/-- The distinguished time signal `T = new Signal((t) => t)`. -/
def T : Signal := ⟨fun t => t⟩

-- Sanity checks against the unit tests in signal.test.ts.
example : (T.mul (Signal.const 2)).eval 5 = 10 := by norm_num [Signal.eval, Signal.mul, Signal.const, T]
example : ((T.sub (Signal.const 1)).mod (Signal.const 4)).eval 0 = 3 := by
  have h0 : ((T.sub (Signal.const 1)).mod (Signal.const 4)).eval 0
      = jsRem (jsRem (-1 : ℚ) 4 + 4) 4 := by
    simp only [Signal.eval, Signal.sub, Signal.mod, Signal.const, T]
    norm_num
  have h1 : jsRem (-1 : ℚ) 4 = -1 := by unfold jsRem jsTrunc; norm_num
  rw [h0, h1, show (-1 : ℚ) + 4 = 3 by norm_num]
  unfold jsRem jsTrunc; norm_num

/-! ## Stream (src/core/stream.ts) -/

/-- `DEFAULT_VELOCITY` (src/config.ts): `0.7`. -/
def DEFAULT_VELOCITY : ℚ := 7 / 10

/-- A sequence entry (`SequenceValue` in src/core/types.ts): a pitch,
the rest marker `null`, or a chord (array of pitches / nulls). -/
inductive SequenceValue where
  | note (n : ℚ)
  | rest
  | chord (ns : List (Option ℚ))
deriving DecidableEq

/-- JS `x !== null` on a possibly-`undefined` sequence entry: only the
rest marker (`null`) fails the test; `undefined` (out of bounds, modelled
by `none`) and chords pass it. -/
def notNullValue : Option SequenceValue → Bool
  | some SequenceValue.rest => false
  | _ => true

/-- `ModifierValue`: a constant, a Signal, or a phase function.  The
evaluated result is a `JsNum` (`none` = NaN) so NaN handling in
`evalModifier` is observable; the phase-function case receives the phase
and the time, matching `mod(phaseSignal)` evaluated at `t`. -/
inductive ModifierValue where
  | constV (v : JsNum)
  | sigV (f : ℚ → JsNum)
  | phaseF (f : ℚ → ℚ → JsNum)

/-- Raw evaluation of a modifier at time `t` with phase `phase` —
the `value` computed by `Stream.evalModifier` before its NaN check. -/
def ModifierValue.evalRaw : ModifierValue → ℚ → ℚ → JsNum
  | ModifierValue.constV v, _, _ => v
  | ModifierValue.sigV f, t, _ => f t
  | ModifierValue.phaseF f, t, phase => f phase t

/-- The `Stream` class fields (src/core/stream.ts): values, driver,
modifiers, mask, instrument key and the persisted trigger state
`_lastFloor` / `_warnedNaN`.  Gate functions may evaluate to NaN
(`none`); the source compares the raw result with `>= 0.5`. -/
structure Stream where
  values : List SequenceValue
  driver : Signal
  vel : Option ModifierValue := none
  gateF : Option (ℚ → ℚ → JsNum) := none
  press : Option ModifierValue := none
  slide : Option ModifierValue := none
  bendM : Option ModifierValue := none
  maskS : Option Signal := none
  inst : String := "sine"
  lastFloor : Option ℤ := none
  warnedNaN : Bool := false

/-- Result of `Stream.evalModifier`: the returned value, the updated
`_warnedNaN` flag, and whether this call emitted a `console.warn`. -/
structure ModResult where
  value : JsNum
  warnedNaN : Bool
  didWarn : Bool
deriving DecidableEq

/-- `Stream.evalModifier(mod, t, phase, defaultVal)` with the stream's
`_warnedNaN` flag passed and returned explicitly.  A NaN result warns
(once) and substitutes the default; the final `return` also substitutes
the default when NaN was already warned about. -/
def evalModifier (warnedNaN : Bool) (m : Option ModifierValue)
    (t phase defaultVal : ℚ) : ModResult :=
  match m with
  | none => ⟨some defaultVal, warnedNaN, false⟩
  | some mv =>
    match mv.evalRaw t phase with
    | none =>
      if warnedNaN then ⟨some defaultVal, true, false⟩
      else ⟨some defaultVal, true, true⟩
    | some v => ⟨some v, warnedNaN, false⟩

/-- `Math.min` with NaN propagation. -/
def jsMin : JsNum → JsNum → JsNum
  | some a, some b => some (min a b)
  | _, _ => none

/-- `Math.max` with NaN propagation. -/
def jsMax : JsNum → JsNum → JsNum
  | some a, some b => some (max a b)
  | _, _ => none

/-- `index = ((currentFloor % length) + length) % length` on doubles:
with `length = 0` the JS `%` yields NaN (`none`); otherwise integral
doubles follow truncated remainder (`Int.tmod`). -/
def jsIndex (currentFloor : ℤ) (len : ℕ) : Option ℤ :=
  if len = 0 then none
  else some ((currentFloor.tmod len + len).tmod len)

/-- `values[index]`: `undefined` (`none`) for a NaN or out-of-range index. -/
def jsGet (values : List SequenceValue) : Option ℤ → Option SequenceValue
  | none => none
  | some i => if 0 ≤ i then values.get? i.toNat else none

/-- The per-tick snapshot `StreamState`; `index` is `none` when the JS
computation yields NaN, `note` is `none` when the lookup is `undefined`,
`velocity` is a `JsNum` as handed to sinks. -/
structure StreamState where
  trigger : Bool
  note : Option SequenceValue
  velocity : JsNum
  phase : ℚ
  index : Option ℤ
  gateOpen : Bool
  masked : Bool
  driverValue : ℚ
  currentFloor : ℤ
deriving DecidableEq

/-- The mask check inlined in `tick`: `this._mask ? this._mask.eval(t) < 0.5 : false`. -/
def maskedAt (s : Stream) (t : ℚ) : Bool :=
  match s.maskS with
  | some m => decide (m.eval t < 1/2)
  | none => false

/-- The gate check inlined in `tick`: evaluate the phase function and
compare `>= 0.5`; a NaN gate value compares false (gate closed). -/
def gateOpenAt (s : Stream) (phase t : ℚ) : Bool :=
  match s.gateF with
  | some g =>
    match g phase t with
    | some v => decide (v ≥ 1/2)
    | none => false
  | none => true

/-- The integer-crossing check inlined in `tick`:
`this._lastFloor !== null && currentFloor !== this._lastFloor && !masked`. -/
def triggerAt (s : Stream) (currentFloor : ℤ) (masked : Bool) : Bool :=
  match s.lastFloor with
  | some lf => decide (currentFloor ≠ lf) && !masked
  | none => false

/-- `Stream.tick(t)`: returns the state snapshot and the stream with its
mutated private fields (`_lastFloor` set unconditionally, `_warnedNaN`
possibly set by the velocity modifier evaluation). -/
def Stream.tick (s : Stream) (t : ℚ) : StreamState × Stream :=
  let driverValue := s.driver.eval t
  let currentFloor : ℤ := ⌊driverValue⌋
  let phase : ℚ := driverValue - (currentFloor : ℚ)
  let index := jsIndex currentFloor s.values.length
  let note := jsGet s.values index
  let masked := maskedAt s t
  let trigger := triggerAt s currentFloor masked
  let velRes := evalModifier s.warnedNaN s.vel t phase DEFAULT_VELOCITY
  let velocity := jsMax (some 0) (jsMin (some 1) velRes.value)
  let gateOpen := gateOpenAt s phase t
  (⟨trigger && notNullValue note, note, velocity, phase, index, gateOpen,
    masked, driverValue, currentFloor⟩,
   { s with lastFloor := some currentFloor, warnedNaN := velRes.warnedNaN })

/-- `Stream.transferStateFrom(other)`: copy `_lastFloor`. -/
def Stream.transferStateFrom (s other : Stream) : Stream :=
  { s with lastFloor := other.lastFloor }

/-- `Stream.reset()`. -/
def Stream.reset (s : Stream) : Stream := { s with lastFloor := none }

/-- `Stream.getPressure(t, phase)` (threading `_warnedNaN`). -/
def Stream.getPressure (s : Stream) (t phase : ℚ) : ModResult :=
  evalModifier s.warnedNaN s.press t phase 0

/-- `Stream.getSlide(t, phase)`. -/
def Stream.getSlide (s : Stream) (t phase : ℚ) : ModResult :=
  evalModifier s.warnedNaN s.slide t phase 0

/-- `Stream.getBend(t, phase)`. -/
def Stream.getBend (s : Stream) (t phase : ℚ) : ModResult :=
  evalModifier s.warnedNaN s.bendM t phase 0

/-- Ticking a stream through a list of times, collecting the states. -/
def Stream.run (s : Stream) (ts : List ℚ) : List StreamState × Stream :=
  match ts with
  | [] => ([], s)
  | t :: rest =>
    let p := s.tick t
    let q := p.2.run rest
    (p.1 :: q.1, q.2)

/-- Number of ticks whose snapshot reported a trigger. -/
def triggerCount (sts : List StreamState) : ℕ :=
  (sts.filter (fun st => st.trigger)).length

/-! ## Engine (src/audio/engine.ts)

The engine's maps (`streams`, `activeNotes`) are association lists with
JS `Map` semantics: `set` overwrites in place, otherwise appends;
iteration is in insertion order.  `VoiceHandle`s are opaque ids; calling
`handle.release()` or `sink.allNotesOff()` is recorded as an event. -/

/-- An opaque voice handle id (one per sink that accepted a note). -/
abbrev Handle := ℕ

/-- `ActiveNote`: a sounding note with one handle per responding sink. -/
structure ActiveNote where
  note : ℚ
  handles : List Handle
  gateOpen : Bool
deriving DecidableEq

/-- Externally visible engine side effects. -/
inductive EngineEvent where
  | release (h : Handle)
  | allNotesOff (sink : ℕ)
deriving DecidableEq

/-- The `Engine` fields the claims depend on; sinks are counted
(`shutdown` addresses each by index), clock/worklet state is not
modelled. -/
structure EngineState where
  streams : List (String × Stream)
  activeNotes : List (String × List ActiveNote)
  touched : List String
  sinks : ℕ
  running : Bool

/-- JS `Map.get`: the value of the first entry with the given key. -/
def mapGet {α : Type} (m : List (String × α)) (k : String) : Option α :=
  match m with
  | [] => none
  | (k', v) :: rest => if k' = k then some v else mapGet rest k

/-- JS `Map.set`: overwrite in place, else append. -/
def mapSet {α : Type} (m : List (String × α)) (k : String) (v : α) :
    List (String × α) :=
  if (mapGet m k).isSome then
    m.map (fun p => if p.1 = k then (k, v) else p)
  else m ++ [(k, v)]

/-- JS `Map.delete`. -/
def mapDelete {α : Type} (m : List (String × α)) (k : String) :
    List (String × α) :=
  m.filter (fun p => p.1 ≠ k)

/-- All handles currently recorded for a stream name. -/
def streamHandles (an : List (String × List ActiveNote)) (name : String) :
    List Handle :=
  ((mapGet an name).getD []).flatMap (fun a => a.handles)

/-- `Engine.releaseStreamNotes(name)`: release every handle of every
active note for `name`, then delete the entry. -/
def EngineState.releaseStreamNotes (e : EngineState) (name : String) :
    EngineState × List EngineEvent :=
  ({ e with activeNotes := mapDelete e.activeNotes name },
   (streamHandles e.activeNotes name).map EngineEvent.release)

/-- `Engine.beginHotReload()`: clear the touched-name set. -/
def EngineState.beginHotReload (e : EngineState) : EngineState :=
  { e with touched := [] }

/-- One step of the `endHotReload` loop body for a stream name. -/
def endReloadStep (acc : EngineState × List EngineEvent) (name : String) :
    EngineState × List EngineEvent :=
  if name ∈ acc.1.touched then acc
  else
    let p := acc.1.releaseStreamNotes name
    ({ p.1 with streams := mapDelete p.1.streams name }, acc.2 ++ p.2)

/-- `Engine.endHotReload()`: every stream name not touched during the
cycle has its notes released and its binding removed (iterating the
`streams` map in insertion order; deleting the entry being visited). -/
def EngineState.endHotReload (e : EngineState) : EngineState × List EngineEvent :=
  (e.streams.map Prod.fst).foldl endReloadStep (e, [])

/-- `Engine.register(name, stream)`: mark touched; on an existing
binding, transfer state onto the new stream, release the current
voices, then replace the binding. -/
def EngineState.register (e : EngineState) (name : String) (s : Stream) :
    EngineState × List EngineEvent :=
  let e1 := { e with touched :=
    if name ∈ e.touched then e.touched else e.touched ++ [name] }
  match mapGet e1.streams name with
  | some existing =>
    let s' := s.transferStateFrom existing
    let p := e1.releaseStreamNotes name
    ({ p.1 with streams := mapSet p.1.streams name s' }, p.2)
  | none => ({ e1 with streams := mapSet e1.streams name s }, [])

/-- `Engine.unregister(name)`: delete the binding only. -/
def EngineState.unregister (e : EngineState) (name : String) :
    EngineState × List EngineEvent :=
  ({ e with streams := mapDelete e.streams name }, [])

/-- `Engine.stop(name)`: release the stream's notes, delete the binding. -/
def EngineState.stop (e : EngineState) (name : String) :
    EngineState × List EngineEvent :=
  let p := e.releaseStreamNotes name
  ({ p.1 with streams := mapDelete p.1.streams name }, p.2)

/-- `Engine.hush()`: release the notes of every name in `activeNotes`,
then clear `activeNotes` and `streams`. -/
def EngineState.hush (e : EngineState) : EngineState × List EngineEvent :=
  ({ e with activeNotes := [], streams := [] },
   (e.activeNotes.map
     (fun p => (p.2.flatMap (fun a => a.handles)).map EngineEvent.release)).flatten)

/-- `Engine.shutdown()`: stop the clock, send `allNotesOff` to every
sink, clear `activeNotes`. -/
def EngineState.shutdown (e : EngineState) : EngineState × List EngineEvent :=
  ({ e with running := false, activeNotes := [] },
   (List.range e.sinks).map EngineEvent.allNotesOff)

/-! ## Evaluator (src/evaluator.ts)

A user program is modelled by the engine-visible actions it performs
before either returning or throwing: registrations in order, plus a
flag saying whether the program throws after them.  `evaluateCode`
brackets the run with `beginHotReload` / `endHotReload`; the `catch`
branch also calls `endHotReload`. -/

/-- An engine-visible action performed by user code during `evaluateCode`. -/
inductive EvalAction where
  | registerS (name : String) (s : Stream)

/-- The names a user program registers, in order. -/
def actNames (acts : List EvalAction) : List String :=
  acts.map (fun a => match a with | EvalAction.registerS n _ => n)

/-- Run the actions a user program performs, in order. -/
def runActions (e : EngineState) (acts : List EvalAction) :
    EngineState × List EngineEvent :=
  match acts with
  | [] => (e, [])
  | EvalAction.registerS name s :: rest =>
    let p := e.register name s
    let q := runActions p.1 rest
    (q.1, p.2 ++ q.2)

/-- `evaluateCode`: begin the reload bracket, run the program's actions
(the ones it performs before throwing, when `throws` is set), and end
the bracket on both the success and the error path.  Returns the final
state, the emitted events and the success flag. -/
def evaluateCode (e : EngineState) (acts : List EvalAction) (throws : Bool) :
    EngineState × List EngineEvent × Bool :=
  let e1 := e.beginHotReload
  let p := runActions e1 acts
  let q := p.1.endHotReload
  (q.1, p.2 ++ q.2, !throws)

/-! ## MIDI/MPE output (src/midi.ts)

MPE lower zone: channels `2..16`, linear scan for a free channel,
oldest voice stolen when full (explicit note-off first). -/

/-- `ActiveVoice` entries of the MIDI voice-allocation pool. -/
structure ActiveVoice where
  channel : ℕ
  note : ℚ
  stream : String
  startTime : ℚ
deriving DecidableEq

/-- MIDI messages the allocator emits. -/
inductive MidiEvent where
  | noteOff (channel : ℕ) (note : ℚ)
  | noteOn (channel : ℕ) (note : ℚ) (velocity : ℚ)
deriving DecidableEq

/-- `minChannel = 2` (MPE lower zone starts at channel 2). -/
def minChannel : ℕ := 2

/-- `maxChannel = 16`. -/
def maxChannel : ℕ := 16

/-- The channels scanned by the allocation loop, in order. -/
def channelRange : List ℕ := List.range' minChannel (maxChannel - minChannel + 1)

/-- Comparison used by `activeVoices.sort((a, b) => a.startTime - b.startTime)`. -/
def byStart (a b : ActiveVoice) : Prop := a.startTime ≤ b.startTime

instance : DecidableRel byStart := fun a b => by
  unfold byStart; infer_instance

instance : IsTotal ActiveVoice byStart :=
  ⟨fun a b => le_total a.startTime b.startTime⟩

instance : IsTrans ActiveVoice byStart :=
  ⟨fun _ _ _ hab hbc => le_trans hab hbc⟩

/-- `MidiOutput.allocateChannel`: linear scan `minChannel..maxChannel`
for a channel not in use; when none is free, sort by start time, shift
the oldest voice, send its note-off, and reuse its channel. -/
def allocateChannel (voices : List ActiveVoice) (stream : String)
    (note : ℚ) (time : ℚ) : ℕ × List ActiveVoice × List MidiEvent :=
  let used := voices.map (fun v => v.channel)
  match channelRange.find? (fun ch => !used.contains ch) with
  | some ch => (ch, voices ++ [⟨ch, note, stream, time⟩], [])
  | none =>
    match List.insertionSort byStart voices with
    | [] => (minChannel, [], [])
    | oldest :: restV =>
      (oldest.channel,
       restV ++ [⟨oldest.channel, note, stream, time⟩],
       [MidiEvent.noteOff oldest.channel oldest.note])

/-- `MidiOutput.noteOn`: allocate a channel then send the note-on. -/
def midiNoteOn (voices : List ActiveVoice) (stream : String)
    (note : ℚ) (velocity : ℚ) (time : ℚ) :
    ℕ × List ActiveVoice × List MidiEvent :=
  let r := allocateChannel voices stream note time
  (r.1, r.2.1, r.2.2 ++ [MidiEvent.noteOn r.1 note velocity])

/-- A sequence of `noteOn` calls against the pool, collecting per-call
event lists (one list per call, so eviction on a given call is visible). -/
def midiNoteOnRun (voices : List ActiveVoice)
    (calls : List (String × ℚ × ℚ × ℚ)) :
    List ActiveVoice × List (List MidiEvent) :=
  match calls with
  | [] => (voices, [])
  | (st, n, v, tm) :: rest =>
    let r := midiNoteOn voices st n v tm
    let q := midiNoteOnRun r.2.1 rest
    (q.1, r.2.2 :: q.2)

/-! ## Concrete scenario states and call sequences -/

/-- The stream of the seq-wrap scenario: driver `T.mul(10)`,
values `[60, 64, 67]`. -/
def c4s0 : Stream :=
  { values := [SequenceValue.note 60, SequenceValue.note 64, SequenceValue.note 67],
    driver := T.mul (Signal.const 10) }

/-- The scenario stream after the tick at `t = 0.05`. -/
def c4s1 : Stream := (c4s0.tick (1/20)).2

/-- The scenario stream after the tick at `t = 0.15`. -/
def c4s2 : Stream := (c4s1.tick (3/20)).2

/-- The scenario stream after the tick at `t = 0.25`. -/
def c4s3 : Stream := (c4s2.tick (5/20)).2

/-- One `evalModifier` call site: the modifier, time, phase and default. -/
def ModCall : Type := Option ModifierValue × ℚ × ℚ × ℚ

/-- A sequence of `evalModifier` calls threading the stream's
`_warnedNaN` flag, counting the warnings actually emitted. -/
def runModCalls (w : Bool) (calls : List ModCall) : Bool × ℕ :=
  match calls with
  | [] => (w, 0)
  | c :: rest =>
    let r := evalModifier w c.1 c.2.1 c.2.2.1 c.2.2.2
    let q := runModCalls r.warnedNaN rest
    (q.1, (if r.didWarn then 1 else 0) + q.2)

/-- A stream whose gate function evaluates to NaN at every tick. -/
def gateNaNStream : Stream :=
  { values := [SequenceValue.note 60], driver := T,
    gateF := some (fun _ _ => none) }

/-- A stream with persisted trigger state, bound as `"a"` below. -/
def boundStream : Stream :=
  { values := [SequenceValue.note 60], driver := T, lastFloor := some 5 }

/-- An engine holding one registered stream `"a"` with one sounding
note whose voice handle `0` is still active. -/
def engineWithVoice : EngineState :=
  { streams := [("a", boundStream)],
    activeNotes := [("a", [{ note := 60, handles := [0], gateOpen := true }])],
    touched := [],
    sinks := 1,
    running := true }

/-- Sixteen sequential `noteOn` calls with no releases: distinct ascending
start times, notes 60–75, on one stream. -/
def c7calls : List (String × ℚ × ℚ × ℚ) :=
  [("s", 60, 1, 0), ("s", 61, 1, 1), ("s", 62, 1, 2), ("s", 63, 1, 3),
   ("s", 64, 1, 4), ("s", 65, 1, 5), ("s", 66, 1, 6), ("s", 67, 1, 7),
   ("s", 68, 1, 8), ("s", 69, 1, 9), ("s", 70, 1, 10), ("s", 71, 1, 11),
   ("s", 72, 1, 12), ("s", 73, 1, 13), ("s", 74, 1, 14), ("s", 75, 1, 15)]

/-- The voice pool after fifteen sequential `noteOn` calls: every
channel 2–16 holds a voice, started at times 0–14. -/
def fullPool : List ActiveVoice :=
  [⟨2, 60, "s", 0⟩, ⟨3, 61, "s", 1⟩, ⟨4, 62, "s", 2⟩, ⟨5, 63, "s", 3⟩,
   ⟨6, 64, "s", 4⟩, ⟨7, 65, "s", 5⟩, ⟨8, 66, "s", 6⟩, ⟨9, 67, "s", 7⟩,
   ⟨10, 68, "s", 8⟩, ⟨11, 69, "s", 9⟩, ⟨12, 70, "s", 10⟩, ⟨13, 71, "s", 11⟩,
   ⟨14, 72, "s", 12⟩, ⟨15, 73, "s", 13⟩, ⟨16, 74, "s", 14⟩]

/-! ## Basic lemmas about `tick` -/

theorem tick_trigger (s : Stream) (t : ℚ) :
    (s.tick t).1.trigger =
      (triggerAt s ⌊s.driver.eval t⌋ (maskedAt s t) &&
        notNullValue (jsGet s.values (jsIndex ⌊s.driver.eval t⌋ s.values.length))) := rfl

theorem tick_note (s : Stream) (t : ℚ) :
    (s.tick t).1.note = jsGet s.values (jsIndex ⌊s.driver.eval t⌋ s.values.length) := rfl

theorem tick_index (s : Stream) (t : ℚ) :
    (s.tick t).1.index = jsIndex ⌊s.driver.eval t⌋ s.values.length := rfl

theorem tick_currentFloor (s : Stream) (t : ℚ) :
    (s.tick t).1.currentFloor = ⌊s.driver.eval t⌋ := rfl

theorem tick_velocity (s : Stream) (t : ℚ) :
    (s.tick t).1.velocity =
      jsMax (some 0) (jsMin (some 1)
        (evalModifier s.warnedNaN s.vel t
          (s.driver.eval t - (⌊s.driver.eval t⌋ : ℚ)) DEFAULT_VELOCITY).value) := rfl

theorem tick_gateOpen (s : Stream) (t : ℚ) :
    (s.tick t).1.gateOpen = gateOpenAt s (s.driver.eval t - (⌊s.driver.eval t⌋ : ℚ)) t := rfl

theorem tick_snd_lastFloor (s : Stream) (t : ℚ) :
    (s.tick t).2.lastFloor = some ⌊s.driver.eval t⌋ := rfl

theorem tick_snd_warnedNaN (s : Stream) (t : ℚ) :
    (s.tick t).2.warnedNaN =
      (evalModifier s.warnedNaN s.vel t
        (s.driver.eval t - (⌊s.driver.eval t⌋ : ℚ)) DEFAULT_VELOCITY).warnedNaN := rfl

theorem tick_snd_values (s : Stream) (t : ℚ) : (s.tick t).2.values = s.values := rfl

theorem tick_snd_driver (s : Stream) (t : ℚ) : (s.tick t).2.driver = s.driver := rfl

theorem tick_snd_maskS (s : Stream) (t : ℚ) : (s.tick t).2.maskS = s.maskS := rfl

theorem triggerAt_eq_true_iff (s : Stream) (cf : ℤ) (m : Bool) :
    triggerAt s cf m = true ↔
      (∃ lf, s.lastFloor = some lf ∧ lf ≠ cf) ∧ m = false := by
  cases h : s.lastFloor with
  | none => simp [triggerAt, h]
  | some lf =>
    simp only [triggerAt, h, Bool.and_eq_true, decide_eq_true_eq, Bool.not_eq_true']
    constructor
    · rintro ⟨hne, hm⟩
      exact ⟨⟨lf, rfl, fun hc => hne hc.symm⟩, hm⟩
    · rintro ⟨⟨lf', hlf', hne⟩, hm⟩
      cases Option.some.inj hlf'
      exact ⟨fun hc => hne hc.symm, hm⟩

theorem maskedAt_eq_false_iff (s : Stream) (t : ℚ) :
    maskedAt s t = false ↔ ∀ m, s.maskS = some m → 1/2 ≤ m.eval t := by
  cases h : s.maskS with
  | none => simp [maskedAt, h]
  | some m =>
    simp only [maskedAt, h, decide_eq_false_iff_not, not_lt]
    constructor
    · intro hle m' hm'
      cases Option.some.inj hm'
      exact hle
    · intro hall
      exact hall m rfl

theorem notNullValue_eq_true_iff (n : Option SequenceValue) :
    notNullValue n = true ↔ n ≠ some SequenceValue.rest := by
  cases n with
  | none => simp [notNullValue]
  | some v => cases v <;> simp [notNullValue]

/-- For a nonzero length, the JS index computation
`((cf % len) + len) % len` equals the euclidean remainder. -/
theorem jsIndex_eq_emod (cf : ℤ) (len : ℕ) (h : len ≠ 0) :
    jsIndex cf len = some (cf.emod len) := by
  have hn : (0 : ℤ) < (len : ℤ) := by exact_mod_cast Nat.pos_of_ne_zero h
  have hnonneg : 0 ≤ cf.tmod len + len := by
    rcases le_or_lt 0 cf with hc | hc
    · have := Int.tmod_nonneg (len : ℤ) hc
      omega
    · have hneg : cf.tmod len = -((-cf).tmod len) := by
        rw [Int.tmod_def, Int.tmod_def, Int.neg_tdiv]
        ring
      have := Int.tmod_lt_of_pos (-cf) hn
      omega
  have hrw : cf.tmod len + len = cf + (len : ℤ) * (1 - cf.tdiv len) := by
    rw [Int.tmod_def]
    ring
  unfold jsIndex
  rw [if_neg h, Int.tmod_eq_emod hnonneg hn.le, hrw, Int.add_mul_emod_self_left]
  rfl

/-- Bounds for the euclidean remainder by a positive length. -/
theorem emod_idx_bounds (cf : ℤ) (len : ℕ) (h : len ≠ 0) :
    0 ≤ cf.emod len ∧ cf.emod len < (len : ℤ) := by
  have hn : (0 : ℤ) < (len : ℤ) := by exact_mod_cast Nat.pos_of_ne_zero h
  exact ⟨Int.emod_nonneg cf (by omega), Int.emod_lt_of_pos cf hn⟩

/-! ## Claim theorems -/

/-- C1: on every `tick(t)`, the returned trigger flag is true iff
`lastFloor` was previously defined and differs from `floor(driver(t))`,
the mask (if set) evaluates to at least `0.5` at `t`, and the indexed
note is not a rest; and `lastFloor` is updated to `floor(driver(t))`
unconditionally, even on masked or rest ticks, so a masked crossing is
dropped rather than deferred. -/
theorem c1_tick_trigger_invariant (s : Stream) (t : ℚ) :
    ((s.tick t).1.trigger = true ↔
      (∃ lf, s.lastFloor = some lf ∧ lf ≠ ⌊s.driver.eval t⌋) ∧
      (∀ m, s.maskS = some m → 1/2 ≤ m.eval t) ∧
      jsGet s.values (jsIndex ⌊s.driver.eval t⌋ s.values.length) ≠
        some SequenceValue.rest) ∧
    (s.tick t).2.lastFloor = some ⌊s.driver.eval t⌋ := by
  refine ⟨?_, tick_snd_lastFloor s t⟩
  rw [tick_trigger, Bool.and_eq_true, triggerAt_eq_true_iff,
    notNullValue_eq_true_iff, maskedAt_eq_false_iff]
  tauto

/-- C10: for a stream with a non-empty values sequence, the `index`
field of every tick's snapshot is an integer with
`0 ≤ index < values.length` (the note lookup is in bounds); with an
empty values sequence there is no guard — the JS index computation
reduces modulo zero and yields NaN. -/
theorem c10_tick_index_bounds :
    (∀ (s : Stream) (t : ℚ), s.values ≠ [] →
      ∃ i : ℤ, (s.tick t).1.index = some i ∧ 0 ≤ i ∧ i < s.values.length) ∧
    (∀ (s : Stream) (t : ℚ), s.values = [] → (s.tick t).1.index = none) := by
  constructor
  · intro s t h
    have hlen : s.values.length ≠ 0 := fun hc => h (List.length_eq_zero.mp hc)
    refine ⟨⌊s.driver.eval t⌋.emod s.values.length, ?_, ?_, ?_⟩
    · rw [tick_index, jsIndex_eq_emod _ _ hlen]
    · exact (emod_idx_bounds _ _ hlen).1
    · exact_mod_cast (emod_idx_bounds _ _ hlen).2
  · intro s t h
    rw [tick_index, h]
    rfl

/-- For a nonnegative dividend and positive modulus, the JS remainder
is `y - m * floor (y / m)`, which lies in `[0, m)`. -/
theorem jsRem_bounds_of_nonneg (y m : ℚ) (hy : 0 ≤ y) (hm : 0 < m) :
    0 ≤ jsRem y m ∧ jsRem y m < m := by
  have hq : 0 ≤ y / m := div_nonneg hy hm.le
  have hmy : m * (y / m) = y := by field_simp
  unfold jsRem jsTrunc
  rw [if_pos hq]
  constructor
  · have h1 : ((⌊y / m⌋ : ℚ)) ≤ y / m := Int.floor_le _
    have h2 : m * ((⌊y / m⌋ : ℚ)) ≤ m * (y / m) := by
      exact mul_le_mul_of_nonneg_left h1 hm.le
    linarith
  · have h1 : y / m - 1 < ((⌊y / m⌋ : ℚ)) := Int.sub_one_lt_floor _
    have h2 : m * (y / m - 1) < m * ((⌊y / m⌋ : ℚ)) := by
      exact mul_lt_mul_of_pos_left h1 hm
    have h3 : m * (y / m - 1) = y - m := by
      rw [mul_sub, hmy]; ring
    linarith

/-- For a positive modulus the JS remainder always exceeds `-m`. -/
theorem jsRem_gt_neg (x m : ℚ) (hm : 0 < m) : -m < jsRem x m := by
  have hmx : m * (x / m) = x := by field_simp
  unfold jsRem jsTrunc
  by_cases hq : 0 ≤ x / m
  · rw [if_pos hq]
    have h1 : ((⌊x / m⌋ : ℚ)) ≤ x / m := Int.floor_le _
    have h2 : m * ((⌊x / m⌋ : ℚ)) ≤ m * (x / m) := by
      exact mul_le_mul_of_nonneg_left h1 hm.le
    linarith
  · rw [if_neg hq]
    have h1 : ((⌈x / m⌉ : ℚ)) < x / m + 1 := Int.ceil_lt_add_one _
    have h2 : m * ((⌈x / m⌉ : ℚ)) < m * (x / m + 1) := by
      exact mul_lt_mul_of_pos_left h1 hm
    have h3 : m * (x / m + 1) = x + m := by
      rw [mul_add, hmx]; ring
    linarith

/-- C3: for every signal, every modulus `m > 0` and every time `t`, the
signal built by `mod(m)` evaluates into the half-open interval `[0, m)`
— including for negative inputs (true mathematical modulo, not the
language's remainder); in particular `(-1) mod 4 = 3`. -/
theorem c3_mod_range :
    (∀ (s : Signal) (m t : ℚ), 0 < m →
      0 ≤ (s.mod (Signal.const m)).eval t ∧ (s.mod (Signal.const m)).eval t < m) ∧
    ((T.sub (Signal.const 1)).mod (Signal.const 4)).eval 0 = 3 := by
  constructor
  · intro s m t hm
    show 0 ≤ jsRem (jsRem (s.eval t) m + m) m ∧ jsRem (jsRem (s.eval t) m + m) m < m
    have hy : 0 ≤ jsRem (s.eval t) m + m := by
      linarith [jsRem_gt_neg (s.eval t) m hm]
    exact jsRem_bounds_of_nonneg _ m hy hm
  · have h0 : ((T.sub (Signal.const 1)).mod (Signal.const 4)).eval 0
        = jsRem (jsRem (-1 : ℚ) 4 + 4) 4 := by
      simp only [Signal.eval, Signal.sub, Signal.mod, Signal.const, T]
      norm_num
    have h1 : jsRem (-1 : ℚ) 4 = -1 := by unfold jsRem jsTrunc; norm_num
    rw [h0, h1, show (-1 : ℚ) + 4 = 3 by norm_num]
    unfold jsRem jsTrunc; norm_num

/-- C3 witness: the time signal taken mod 4, evaluated at `t = -1`,
lies in `[0, 4)`. -/
theorem c3_witness :
    0 ≤ (T.mod (Signal.const 4)).eval (-1) ∧
      (T.mod (Signal.const 4)).eval (-1) < 4 :=
  c3_mod_range.1 T 4 (-1) (by norm_num)

/-- C4: the resolved note of every tick is
`values[((currentFloor mod length) + length) mod length]`; concretely a
stream with driver `T·10` and values `[60, 64, 67]` ticked at
`t = 0.05, 0.15, 0.25, 0.35` reports no trigger on the first tick and
then triggers at floors 1, 2, 3 with notes 64, 67, 60. -/
theorem c4_wraparound_scenario :
    (∀ (s : Stream) (t : ℚ),
      (s.tick t).1.note = jsGet s.values (jsIndex ⌊s.driver.eval t⌋ s.values.length)) ∧
    (c4s0.tick (1/20)).1.trigger = false ∧
    ((c4s1.tick (3/20)).1.trigger = true ∧
      (c4s1.tick (3/20)).1.currentFloor = 1 ∧
      (c4s1.tick (3/20)).1.note = some (SequenceValue.note 64)) ∧
    ((c4s2.tick (5/20)).1.trigger = true ∧
      (c4s2.tick (5/20)).1.currentFloor = 2 ∧
      (c4s2.tick (5/20)).1.note = some (SequenceValue.note 67)) ∧
    ((c4s3.tick (7/20)).1.trigger = true ∧
      (c4s3.tick (7/20)).1.currentFloor = 3 ∧
      (c4s3.tick (7/20)).1.note = some (SequenceValue.note 60)) := by
  refine ⟨fun s t => tick_note s t, ?_, ⟨?_, ?_, ?_⟩, ⟨?_, ?_, ?_⟩, ⟨?_, ?_, ?_⟩⟩
  · simp [tick_trigger, c4s0, triggerAt]
  · simp [tick_trigger, c4s1, tick_snd_lastFloor, tick_snd_driver, tick_snd_maskS,
      tick_snd_values, triggerAt, maskedAt, c4s0, Signal.eval, Signal.mul,
      Signal.const, T, jsGet, notNullValue]
    norm_num
    decide
  · simp [tick_currentFloor, c4s1, tick_snd_driver, c4s0, Signal.eval, Signal.mul,
      Signal.const, T]
    norm_num
  · simp [tick_note, c4s1, tick_snd_driver, tick_snd_values, c4s0, Signal.eval,
      Signal.mul, Signal.const, T, jsGet,
      show ((3:ℚ)/20 * 10) = 3/2 from by norm_num,
      show (⌊(3:ℚ)/2⌋ : ℤ) = 1 from by norm_num]
    decide
  · simp [tick_trigger, c4s2, c4s1, tick_snd_lastFloor, tick_snd_driver, tick_snd_maskS,
      tick_snd_values, triggerAt, maskedAt, c4s0, Signal.eval, Signal.mul,
      Signal.const, T, jsGet, notNullValue]
    norm_num
    decide
  · simp [tick_currentFloor, c4s2, c4s1, tick_snd_driver, c4s0, Signal.eval, Signal.mul,
      Signal.const, T]
    norm_num
  · simp [tick_note, c4s2, c4s1, tick_snd_driver, tick_snd_values, c4s0, Signal.eval,
      Signal.mul, Signal.const, T, jsGet,
      show ((5:ℚ)/20 * 10) = 5/2 from by norm_num,
      show (⌊(5:ℚ)/2⌋ : ℤ) = 2 from by norm_num]
    decide
  · simp [tick_trigger, c4s3, c4s2, c4s1, tick_snd_lastFloor, tick_snd_driver,
      tick_snd_maskS, tick_snd_values, triggerAt, maskedAt, c4s0, Signal.eval,
      Signal.mul, Signal.const, T, jsGet, notNullValue]
    norm_num
    decide
  · simp [tick_currentFloor, c4s3, c4s2, c4s1, tick_snd_driver, c4s0, Signal.eval,
      Signal.mul, Signal.const, T]
    norm_num
  · simp [tick_note, c4s3, c4s2, c4s1, tick_snd_driver, tick_snd_values, c4s0,
      Signal.eval, Signal.mul, Signal.const, T, jsGet,
      show ((7:ℚ)/20 * 10) = 7/2 from by norm_num,
      show (⌊(7:ℚ)/2⌋ : ℤ) = 3 from by norm_num]
    decide

/-- A tick of a stream whose values are non-empty and rest-free always
resolves a non-rest note. -/
theorem note_not_rest (s : Stream) (t : ℚ) (hne : s.values ≠ [])
    (hnr : ∀ v ∈ s.values, v ≠ SequenceValue.rest) :
    notNullValue (jsGet s.values (jsIndex ⌊s.driver.eval t⌋ s.values.length)) = true := by
  have hlen : s.values.length ≠ 0 := fun hc => hne (List.length_eq_zero.mp hc)
  obtain ⟨h0, hlt⟩ := emod_idx_bounds ⌊s.driver.eval t⌋ s.values.length hlen
  rw [jsIndex_eq_emod _ _ hlen]
  have hn : (⌊s.driver.eval t⌋.emod s.values.length).toNat < s.values.length := by
    omega
  simp only [jsGet, if_pos h0, List.get?_eq_get hn]
  rw [notNullValue_eq_true_iff]
  intro hc
  exact hnr _ (List.get_mem _ _ _) (Option.some.inj hc)

/-- One cons step of the trigger count. -/
theorem triggerCount_cons (st : StreamState) (l : List StreamState) :
    triggerCount (st :: l) = (if st.trigger = true then 1 else 0) + triggerCount l := by
  by_cases h : st.trigger = true
  · simp [triggerCount, List.filter, h]
    omega
  · simp [triggerCount, List.filter, h]

/-- Counting induction for C2: starting from a defined `lastFloor` equal
to `f`, if the driver's floor advances by zero or one at each tick, the
number of triggers over the run equals the final floor minus `f`. -/
theorem run_trigger_count_aux (ts : List ℚ) :
    ∀ (s : Stream) (f : ℤ), s.lastFloor = some f → s.maskS = none →
    s.values ≠ [] → (∀ v ∈ s.values, v ≠ SequenceValue.rest) →
    List.Chain (fun a b => b = a ∨ b = a + 1) f
      (ts.map (fun t => ⌊s.driver.eval t⌋)) →
    (triggerCount (s.run ts).1 : ℤ) =
      (ts.map (fun t => ⌊s.driver.eval t⌋)).getLastD f - f := by
  induction ts with
  | nil =>
    intro s f _ _ _ _ _
    simp [Stream.run, triggerCount]
  | cons t rest ih =>
    intro s f hlf hmask hne hnr hchain
    simp only [List.map_cons, List.chain_cons] at hchain
    obtain ⟨hstep, hchain'⟩ := hchain
    have hmasked : maskedAt s t = false := by simp [maskedAt, hmask]
    have htrig : (s.tick t).1.trigger = decide (⌊s.driver.eval t⌋ ≠ f) := by
      rw [tick_trigger, note_not_rest s t hne hnr, Bool.and_true, triggerAt, hlf,
        hmasked]
      simp
    have hrun : (s.run (t :: rest)).1 =
        (s.tick t).1 :: ((s.tick t).2.run rest).1 := rfl
    have hdrv : ∀ u : ℚ, (s.tick t).2.driver.eval u = s.driver.eval u := by
      intro u
      rw [tick_snd_driver]
    have hvals : (s.tick t).2.values = s.values := tick_snd_values s t
    have hih := ih ((s.tick t).2) ⌊s.driver.eval t⌋ (tick_snd_lastFloor s t)
      (by rw [tick_snd_maskS]; exact hmask)
      (by rw [hvals]; exact hne)
      (by rw [hvals]; exact hnr)
      (by
        have : (rest.map (fun u => ⌊(s.tick t).2.driver.eval u⌋)) =
            (rest.map (fun u => ⌊s.driver.eval u⌋)) := by
          exact List.map_congr_left (fun u _ => by rw [hdrv u])
        rw [this]
        exact hchain')
    rw [hrun, triggerCount_cons, htrig]
    push_cast
    have hmapeq : (rest.map (fun u => ⌊(s.tick t).2.driver.eval u⌋)) =
        (rest.map (fun u => ⌊s.driver.eval u⌋)) :=
      List.map_congr_left (fun u _ => by rw [hdrv u])
    rw [hmapeq] at hih
    rw [List.map_cons, List.getLastD_cons]
    rcases hstep with h | h
    · rw [h] at hih ⊢
      rw [hih]
      simp
    · rw [h] at hih ⊢
      rw [hih]
      have hne' : f + 1 ≠ f := by omega
      rw [if_pos (by simp [hne'])]
      ring

/-- C2 (amended): for a fresh unmasked stream with a non-empty,
rest-free values sequence, if the driver's floor advances by at most
one between consecutive ticks (which a sufficiently dense tick sequence
under a strictly increasing driver guarantees), the number of triggers
emitted over the run equals `floor(D(t_end)) − floor(D(t_0))`. -/
theorem c2_trigger_count (s : Stream) (t0 : ℚ) (ts : List ℚ)
    (hlf : s.lastFloor = none) (hmask : s.maskS = none)
    (hne : s.values ≠ []) (hnr : ∀ v ∈ s.values, v ≠ SequenceValue.rest)
    (hchain : List.Chain (fun a b => b = a ∨ b = a + 1) ⌊s.driver.eval t0⌋
      (ts.map (fun t => ⌊s.driver.eval t⌋))) :
    (triggerCount (s.run (t0 :: ts)).1 : ℤ) =
      (ts.map (fun t => ⌊s.driver.eval t⌋)).getLastD ⌊s.driver.eval t0⌋
        - ⌊s.driver.eval t0⌋ := by
  have hfirst : (s.tick t0).1.trigger = false := by
    rw [tick_trigger, triggerAt, hlf]
    rfl
  have hrun : (s.run (t0 :: ts)).1 =
      (s.tick t0).1 :: ((s.tick t0).2.run ts).1 := rfl
  have hdrv : ∀ u : ℚ, (s.tick t0).2.driver.eval u = s.driver.eval u := by
    intro u
    rw [tick_snd_driver]
  have hmapeq : (ts.map (fun u => ⌊(s.tick t0).2.driver.eval u⌋)) =
      (ts.map (fun u => ⌊s.driver.eval u⌋)) :=
    List.map_congr_left (fun u _ => by rw [hdrv u])
  have haux := run_trigger_count_aux ts ((s.tick t0).2) ⌊s.driver.eval t0⌋
    (tick_snd_lastFloor s t0)
    (by rw [tick_snd_maskS]; exact hmask)
    (by rw [tick_snd_values]; exact hne)
    (by rw [tick_snd_values]; exact hnr)
    (by rw [hmapeq]; exact hchain)
  rw [hmapeq] at haux
  rw [hrun, triggerCount_cons, hfirst]
  simpa using haux

/-- C2 counterexample: the driver `T·10` is strictly increasing on all
of ℚ (hence on `[0.05, 0.25]`), the tick sequence `0.05 < 0.25` covers
that interval, the stream is unmasked with rest-free values, yet the
run emits 1 trigger while `floor(D(0.25)) − floor(D(0.05)) = 2`. -/
theorem c2_counterexample :
    StrictMono (fun t : ℚ => (T.mul (Signal.const 10)).eval t) ∧
    ((1 : ℚ)/20 < 5/20) ∧
    c4s0.maskS = none ∧
    (∀ v ∈ c4s0.values, v ≠ SequenceValue.rest) ∧
    triggerCount (c4s0.run [1/20, 5/20]).1 = 1 ∧
    (⌊(T.mul (Signal.const 10)).eval (5/20)⌋ -
      ⌊(T.mul (Signal.const 10)).eval (1/20)⌋ : ℤ) = 2 := by
  refine ⟨?_, by norm_num, rfl, ?_, ?_, ?_⟩
  · intro a b hab
    show a * 10 < b * 10
    exact mul_lt_mul_of_pos_right hab (by norm_num)
  · intro v hv
    simp only [c4s0, List.mem_cons, List.not_mem_nil, or_false] at hv
    rcases hv with h | h | h <;> subst h <;> simp
  · have h1 : (c4s0.tick (1/20)).1.trigger = false := by
      simp [tick_trigger, c4s0, triggerAt]
    have h2 : (c4s1.tick (5/20)).1.trigger = true := by
      simp [tick_trigger, c4s1, tick_snd_lastFloor, tick_snd_driver, tick_snd_maskS,
        tick_snd_values, triggerAt, maskedAt, c4s0, Signal.eval, Signal.mul,
        Signal.const, T, jsGet, notNullValue]
      norm_num
      decide
    have hrun : (c4s0.run [1/20, 5/20]).1 =
        [(c4s0.tick (1/20)).1, (c4s1.tick (5/20)).1] := rfl
    rw [hrun, triggerCount_cons, triggerCount_cons, h1, h2]
    simp [triggerCount]
  · show (⌊(5:ℚ)/20 * 10⌋ - ⌊(1:ℚ)/20 * 10⌋ : ℤ) = 2
    norm_num

/-- C2 witness: the amended theorem at the concrete scenario stream with
dense ticks `0.05, 0.15, 0.25`: 2 triggers = floor 2 − floor 0. -/
theorem c2_witness :
    (triggerCount (c4s0.run [1/20, 3/20, 5/20]).1 : ℤ) =
      (([3/20, 5/20].map (fun t => ⌊c4s0.driver.eval t⌋)).getLastD
        ⌊c4s0.driver.eval (1/20)⌋ - ⌊c4s0.driver.eval (1/20)⌋) := by
  have hfl1 : (⌊c4s0.driver.eval (1/20)⌋ : ℤ) = 0 := by
    show (⌊(1:ℚ)/20 * 10⌋ : ℤ) = 0
    norm_num
  have hfl2 : (⌊c4s0.driver.eval (3/20)⌋ : ℤ) = 1 := by
    show (⌊(3:ℚ)/20 * 10⌋ : ℤ) = 1
    norm_num
  have hfl3 : (⌊c4s0.driver.eval (5/20)⌋ : ℤ) = 2 := by
    show (⌊(5:ℚ)/20 * 10⌋ : ℤ) = 2
    norm_num
  refine c2_trigger_count c4s0 (1/20) [3/20, 5/20] rfl rfl (by simp [c4s0]) ?_ ?_
  · intro v hv
    simp only [c4s0, List.mem_cons, List.not_mem_nil, or_false] at hv
    rcases hv with h | h | h <;> subst h <;> simp
  · simp only [List.map_cons, List.map_nil, hfl1, hfl2, hfl3, List.chain_cons,
      List.Chain.nil]
    norm_num

/-- Once the flag is set, `evalModifier` never warns again and the flag
stays set. -/
theorem evalModifier_warned_absorb (m : Option ModifierValue) (t phase d : ℚ) :
    (evalModifier true m t phase d).didWarn = false ∧
    (evalModifier true m t phase d).warnedNaN = true := by
  cases m with
  | none => exact ⟨rfl, rfl⟩
  | some mv =>
    unfold evalModifier
    cases h : mv.evalRaw t phase <;> simp [h]

/-- A call that does not warn leaves an unset flag unset. -/
theorem evalModifier_no_warn_flag (m : Option ModifierValue) (t phase d : ℚ) :
    (evalModifier false m t phase d).didWarn = false →
    (evalModifier false m t phase d).warnedNaN = false := by
  cases m with
  | none => intro; rfl
  | some mv =>
    unfold evalModifier
    cases h : mv.evalRaw t phase <;> simp [h]

/-- With the flag already set, no run of calls emits any warning. -/
theorem runModCalls_warned_zero (calls : List ModCall) :
    (runModCalls true calls).2 = 0 := by
  induction calls with
  | nil => rfl
  | cons c rest ih =>
    unfold runModCalls
    obtain ⟨h1, h2⟩ := evalModifier_warned_absorb c.1 c.2.1 c.2.2.1 c.2.2.2
    simp only [h1, h2, if_false]
    simpa using ih

/-- With an unset flag, a call that warns sets the flag. -/
theorem evalModifier_warn_sets_flag (m : Option ModifierValue) (t phase d : ℚ) :
    (evalModifier false m t phase d).didWarn = true →
    (evalModifier false m t phase d).warnedNaN = true := by
  cases m with
  | none => intro h; exact absurd h (by simp [evalModifier])
  | some mv =>
    unfold evalModifier
    cases h : mv.evalRaw t phase <;> simp [h]

/-- Every value handed out by `evalModifier` is a real number. -/
theorem evalModifier_isSome (w : Bool) (m : Option ModifierValue)
    (t phase d : ℚ) : (evalModifier w m t phase d).value.isSome = true := by
  cases m with
  | none => rfl
  | some mv =>
    unfold evalModifier
    cases h : mv.evalRaw t phase with
    | none => cases w <;> simp [h]
    | some v => simp [h]

/-- C8 counterexample: a stream whose gate yields NaN at `t = 0`
reports `gateOpen = false` instead of substituting the gate's default
(no gate ⇒ always open, i.e. `true`), and emits no warning (the
`_warnedNaN` flag stays unset) — the gate modifier has no NaN recovery. -/
theorem c8_counterexample :
    (gateNaNStream.tick 0).1.gateOpen = false ∧
    (gateNaNStream.tick 0).2.warnedNaN = false ∧
    (({ gateNaNStream with gateF := none } : Stream).tick 0).1.gateOpen = true := by
  refine ⟨rfl, ?_, rfl⟩
  rw [tick_snd_warnedNaN]
  rfl

/-- C8 (amended): for velocity, pressure, slide and bend — the
modifiers routed through `evalModifier` — a NaN evaluation substitutes
the modifier's default and the warning is emitted at most once per
stream instance across any sequence of calls; NaN is never forwarded to
the returned `StreamState` velocity or to the sink-bound
pressure/slide/bend values.  The gate modifier is the exception: a NaN
gate value merely compares false (gate closed) with no default
substitution and no warning. -/
theorem c8_nan_recovery :
    (∀ (w : Bool) (m : Option ModifierValue) (t phase d : ℚ),
      (evalModifier w m t phase d).value.isSome = true) ∧
    (∀ (w : Bool) (mv : ModifierValue) (t phase d : ℚ),
      mv.evalRaw t phase = none →
      (evalModifier w (some mv) t phase d).value = some d) ∧
    (∀ calls : List ModCall, (runModCalls false calls).2 ≤ 1) ∧
    (∀ (s : Stream) (t : ℚ), (s.tick t).1.velocity.isSome = true) ∧
    (∀ (s : Stream) (t phase : ℚ),
      (s.getPressure t phase).value.isSome = true ∧
      (s.getSlide t phase).value.isSome = true ∧
      (s.getBend t phase).value.isSome = true) ∧
    (∀ (s : Stream) (g : ℚ → ℚ → JsNum) (phase t : ℚ), s.gateF = some g →
      g phase t = none → gateOpenAt s phase t = false) := by
  refine ⟨evalModifier_isSome, ?_, ?_, ?_, ?_, ?_⟩
  · intro w mv t phase d h
    cases w <;> simp [evalModifier, h]
  · intro calls
    induction calls with
    | nil => simp [runModCalls]
    | cons c rest ih =>
      unfold runModCalls
      by_cases h : (evalModifier false c.1 c.2.1 c.2.2.1 c.2.2.2).didWarn = true
      · have hw := evalModifier_warn_sets_flag c.1 c.2.1 c.2.2.1 c.2.2.2 h
        simp [h, hw, runModCalls_warned_zero]
      · have h' : (evalModifier false c.1 c.2.1 c.2.2.1 c.2.2.2).didWarn = false := by
          simpa using h
        have hw := evalModifier_no_warn_flag c.1 c.2.1 c.2.2.1 c.2.2.2 h'
        simp only [h', if_false, hw]
        simpa using ih
  · intro s t
    rw [tick_velocity]
    obtain ⟨v, hv⟩ := Option.isSome_iff_exists.mp
      (evalModifier_isSome s.warnedNaN s.vel t
        (s.driver.eval t - (⌊s.driver.eval t⌋ : ℚ)) DEFAULT_VELOCITY)
    rw [hv]
    rfl
  · intro s t phase
    exact ⟨evalModifier_isSome _ _ _ _ _, evalModifier_isSome _ _ _ _ _,
      evalModifier_isSome _ _ _ _ _⟩
  · intro s g phase t hg hnan
    unfold gateOpenAt
    simp [hg, hnan]

/-- C8 witness: a constant-NaN velocity modifier with default 0.7
evaluates to the default. -/
theorem c8_witness :
    (evalModifier false (some (ModifierValue.constV none)) 0 0 (7/10)).value
      = some (7/10) :=
  c8_nan_recovery.2.1 false (ModifierValue.constV none) 0 0 (7/10) rfl

/-- C10 witness: a concrete stream with three values and driver `T`
gets index 0 at `t = 1/2`, within bounds. -/
theorem c10_witness :
    ([SequenceValue.note 60, SequenceValue.note 64, SequenceValue.note 67] ≠
      ([] : List SequenceValue)) ∧
    (∃ i : ℤ,
      (Stream.tick { values := [SequenceValue.note 60, SequenceValue.note 64,
        SequenceValue.note 67], driver := T } (1/2)).1.index = some i ∧
      0 ≤ i ∧ i < 3) := by
  refine ⟨by simp, ?_⟩
  have h := c10_tick_index_bounds.1
    { values := [SequenceValue.note 60, SequenceValue.note 64,
        SequenceValue.note 67], driver := T } (1/2) (by simp)
  simpa using h

/-! ## Association-list lemmas (JS `Map` semantics) -/

theorem mapGet_map_overwrite {α : Type} (m : List (String × α)) (k : String)
    (v : α) (h : (mapGet m k).isSome = true) :
    mapGet (m.map (fun p => if p.1 = k then (k, v) else p)) k = some v := by
  induction m with
  | nil => simp [mapGet] at h
  | cons p rest ih =>
    by_cases hk : p.1 = k
    · rw [List.map_cons, if_pos hk]
      simp [mapGet]
    · rw [List.map_cons, if_neg hk]
      have h' : (mapGet rest k).isSome = true := by
        simpa [mapGet, hk] using h
      simp [mapGet, hk, ih h']

theorem mapGet_append_single {α : Type} (m : List (String × α)) (k : String)
    (v : α) (h : mapGet m k = none) :
    mapGet (m ++ [(k, v)]) k = some v := by
  induction m with
  | nil => simp [mapGet]
  | cons p rest ih =>
    by_cases hk : p.1 = k
    · simp [mapGet, hk] at h
    · have h' : mapGet rest k = none := by simpa [mapGet, hk] using h
      simp [mapGet, hk, ih h']

theorem mapGet_mapSet_self {α : Type} (m : List (String × α)) (k : String)
    (v : α) : mapGet (mapSet m k v) k = some v := by
  unfold mapSet
  by_cases h : (mapGet m k).isSome = true
  · rw [if_pos h]
    exact mapGet_map_overwrite m k v h
  · rw [if_neg h]
    exact mapGet_append_single m k v (by
      cases hg : mapGet m k
      · rfl
      · exact absurd (by simp [hg]) h)

theorem mapGet_mapDelete_self {α : Type} (m : List (String × α)) (k : String) :
    mapGet (mapDelete m k) k = none := by
  induction m with
  | nil => rfl
  | cons p rest ih =>
    by_cases hk : p.1 = k
    · simpa [mapDelete, List.filter_cons, hk] using ih
    · simpa [mapDelete, List.filter_cons, hk, mapGet] using ih

theorem mapGet_mapDelete_ne {α : Type} (m : List (String × α)) (k k' : String)
    (h : k' ≠ k) : mapGet (mapDelete m k) k' = mapGet m k' := by
  induction m with
  | nil => rfl
  | cons p rest ih =>
    by_cases hk : p.1 = k
    · have hp : p.1 ≠ k' := by rw [hk]; exact fun hc => h hc.symm
      rw [show mapDelete (p :: rest) k = mapDelete rest k by
        simp [mapDelete, List.filter_cons, hk]]
      rw [ih, show mapGet (p :: rest) k' = mapGet rest k' by
        simp [mapGet, hp]]
    · rw [show mapDelete (p :: rest) k = p :: mapDelete rest k by
        simp [mapDelete, List.filter_cons, hk]]
      by_cases hp : p.1 = k'
      · simp [mapGet, hp]
      · simp [mapGet, hp, ih]

/-- The result of `register` on an existing binding, in closed form. -/
theorem register_existing (e : EngineState) (name : String) (s old : Stream)
    (hold : mapGet e.streams name = some old) :
    e.register name s =
      ({ e with
          touched := if name ∈ e.touched then e.touched else e.touched ++ [name],
          activeNotes := mapDelete e.activeNotes name,
          streams := mapSet e.streams name { s with lastFloor := old.lastFloor } },
       (streamHandles e.activeNotes name).map EngineEvent.release) := by
  simp only [EngineState.register, EngineState.releaseStreamNotes,
    Stream.transferStateFrom, hold]

/-- C5: registering over an existing binding during a reload transfers
the persisted `lastFloor` onto the replacement, releases every active
voice for the name, clears its active-note record and replaces the
binding; ticking the replacement while the driver is still within the
transferred floor does not trigger, and the next floor crossing
triggers exactly once (the tick after it, within the same floor, does
not trigger again). -/
theorem c5_register_transfer (e : EngineState) (name : String)
    (s old : Stream) (f : ℤ)
    (hold : mapGet e.streams name = some old)
    (hf : old.lastFloor = some f)
    (hmask : s.maskS = none)
    (hne : s.values ≠ [])
    (hnr : ∀ v ∈ s.values, v ≠ SequenceValue.rest) :
    mapGet (e.register name s).1.streams name =
      some { s with lastFloor := some f } ∧
    (e.register name s).2 =
      (streamHandles e.activeNotes name).map EngineEvent.release ∧
    mapGet (e.register name s).1.activeNotes name = none ∧
    (∀ t : ℚ, ⌊s.driver.eval t⌋ = f →
      (({ s with lastFloor := some f } : Stream).tick t).1.trigger = false) ∧
    (∀ t : ℚ, ⌊s.driver.eval t⌋ ≠ f →
      (({ s with lastFloor := some f } : Stream).tick t).1.trigger = true ∧
      (∀ u : ℚ, ⌊s.driver.eval u⌋ = ⌊s.driver.eval t⌋ →
        ((({ s with lastFloor := some f } : Stream).tick t).2.tick u).1.trigger
          = false)) := by
  rw [register_existing e name s old hold, hf]
  refine ⟨mapGet_mapSet_self _ _ _, rfl, mapGet_mapDelete_self _ _, ?_, ?_⟩
  · intro t ht
    have hd : ({ s with lastFloor := some f } : Stream).driver = s.driver := rfl
    rw [tick_trigger, hd, ht]
    simp [triggerAt]
  · intro t ht
    have hd : ({ s with lastFloor := some f } : Stream).driver = s.driver := rfl
    constructor
    · rw [tick_trigger, hd,
        note_not_rest ({ s with lastFloor := some f } : Stream) t hne hnr]
      simp [triggerAt, maskedAt, hmask, ht]
    · intro u hu
      rw [tick_trigger]
      have hd2 : ((({ s with lastFloor := some f } : Stream).tick t).2).driver
          = s.driver := tick_snd_driver _ t
      rw [hd2, hu]
      simp [triggerAt, tick_snd_lastFloor, hd]

/-- C5 witness: the concrete engine with bound stream `"a"`
(`lastFloor = 5`) re-registered with a fresh stream driven by `T`:
voice 0 is released, the binding is replaced with `lastFloor` 5
transferred, a tick at `t = 5.5` (floor 5) does not trigger, and a tick
at `t = 6.5` (floor 6) does. -/
theorem c5_witness :
    mapGet (engineWithVoice.register "a"
        { values := [SequenceValue.note 72], driver := T }).1.streams "a" =
      some { values := [SequenceValue.note 72], driver := T,
             lastFloor := some 5 } ∧
    (engineWithVoice.register "a"
        { values := [SequenceValue.note 72], driver := T }).2 =
      [EngineEvent.release 0] ∧
    (({ values := [SequenceValue.note 72], driver := T,
        lastFloor := some (5:ℤ) } : Stream).tick (11/2)).1.trigger = false ∧
    (({ values := [SequenceValue.note 72], driver := T,
        lastFloor := some (5:ℤ) } : Stream).tick (13/2)).1.trigger = true := by
  have h := c5_register_transfer engineWithVoice "a"
    { values := [SequenceValue.note 72], driver := T } boundStream 5
    rfl rfl rfl (by simp) (by intro v hv; simp at hv; subst hv; simp)
  refine ⟨h.1, h.2.1, ?_, ?_⟩
  · exact h.2.2.2.1 (11/2) (by
      show (⌊(11:ℚ)/2⌋ : ℤ) = 5
      norm_num)
  · exact (h.2.2.2.2 (13/2) (by
      show (⌊(13:ℚ)/2⌋ : ℤ) ≠ 5
      norm_num)).1

/-! ## Hot-reload bracket lemmas -/

theorem mapGet_eq_none_of_not_mem {α : Type} (m : List (String × α))
    (k : String) (h : ¬ k ∈ m.map Prod.fst) : mapGet m k = none := by
  induction m with
  | nil => rfl
  | cons p rest ih =>
    have hp : p.1 ≠ k := fun hc => h (by simp [hc])
    have hr : ¬ k ∈ rest.map Prod.fst := fun hc => h (by simp [hc])
    simp [mapGet, hp, ih hr]

theorem mapGet_map_overwrite_ne {α : Type} (m : List (String × α))
    (k k' : String) (v : α) (h : k' ≠ k) :
    mapGet (m.map (fun p => if p.1 = k then (k, v) else p)) k' = mapGet m k' := by
  induction m with
  | nil => rfl
  | cons p rest ih =>
    by_cases hk : p.1 = k
    · rw [List.map_cons, if_pos hk]
      have hk' : k ≠ k' := fun hc => h hc.symm
      have hp' : p.1 ≠ k' := by rw [hk]; exact hk'
      simp [mapGet, hk', hp', ih]
    · rw [List.map_cons, if_neg hk]
      by_cases hp : p.1 = k'
      · simp [mapGet, hp]
      · simp [mapGet, hp, ih]

theorem mapGet_append_single_ne {α : Type} (m : List (String × α))
    (k k' : String) (v : α) (h : k' ≠ k) :
    mapGet (m ++ [(k, v)]) k' = mapGet m k' := by
  induction m with
  | nil =>
    have hk' : k ≠ k' := fun hc => h hc.symm
    simp [mapGet, hk']
  | cons p rest ih =>
    by_cases hp : p.1 = k'
    · simp [mapGet, hp]
    · simp [mapGet, hp, ih]

theorem mapGet_mapSet_ne {α : Type} (m : List (String × α)) (k k' : String)
    (v : α) (h : k' ≠ k) : mapGet (mapSet m k v) k' = mapGet m k' := by
  unfold mapSet
  by_cases hs : (mapGet m k).isSome = true
  · rw [if_pos hs]
    exact mapGet_map_overwrite_ne m k k' v h
  · rw [if_neg hs]
    exact mapGet_append_single_ne m k k' v h

theorem endReloadStep_touched (acc : EngineState × List EngineEvent)
    (name : String) : (endReloadStep acc name).1.touched = acc.1.touched := by
  by_cases h : name ∈ acc.1.touched <;>
    simp [endReloadStep, h, EngineState.releaseStreamNotes]

/-- The `endHotReload` loop, iterated over any name list: a binding
survives iff its name is touched or never visited. -/
theorem foldl_endReload_mapGet (names : List String) :
    ∀ (acc : EngineState × List EngineEvent) (name : String),
      mapGet ((names.foldl endReloadStep acc).1).streams name =
        if name ∈ acc.1.touched ∨ ¬ name ∈ names
        then mapGet acc.1.streams name else none := by
  induction names with
  | nil =>
    intro acc name
    simp
  | cons n rest ih =>
    intro acc name
    rw [List.foldl_cons, ih (endReloadStep acc n) name, endReloadStep_touched]
    by_cases hn : n ∈ acc.1.touched
    · have hstep : endReloadStep acc n = acc := by simp [endReloadStep, hn]
      rw [hstep]
      by_cases hm : name ∈ acc.1.touched
      · simp [hm]
      · by_cases hne : name = n
        · subst hne
          exact absurd hn hm
        · simp [hm, List.mem_cons, hne]
    · have hstr : (endReloadStep acc n).1.streams = mapDelete acc.1.streams n := by
        simp [endReloadStep, hn, EngineState.releaseStreamNotes]
      rw [hstr]
      by_cases hne : name = n
      · subst hne
        by_cases hr : name ∈ rest
        · rw [if_neg (by simp [hn, hr]), if_neg (by simp [hn])]
        · rw [if_pos (by simp [hr]), if_neg (by simp [hn])]
          exact mapGet_mapDelete_self _ _
      · rw [mapGet_mapDelete_ne _ _ _ hne]
        by_cases hc : name ∈ acc.1.touched ∨ ¬ name ∈ rest
        · rw [if_pos hc, if_pos ?_]
          rcases hc with h | h
          · exact Or.inl h
          · exact Or.inr (by simp [List.mem_cons, hne, h])
        · rw [if_neg hc, if_neg ?_]
          intro hc2
          apply hc
          rcases hc2 with h | h
          · exact Or.inl h
          · exact Or.inr (fun hr => h (List.mem_cons_of_mem _ hr))

/-- `endHotReload` keeps exactly the touched bindings. -/
theorem endHotReload_mapGet (e : EngineState) (name : String) :
    mapGet (e.endHotReload).1.streams name =
      if name ∈ e.touched ∨ ¬ name ∈ e.streams.map Prod.fst
      then mapGet e.streams name else none :=
  foldl_endReload_mapGet (e.streams.map Prod.fst) (e, []) name

/-- A name untouched during the cycle is unbound after `endHotReload`. -/
theorem endHotReload_untouched (e : EngineState) (name : String)
    (h : ¬ name ∈ e.touched) :
    mapGet (e.endHotReload).1.streams name = none := by
  rw [endHotReload_mapGet]
  by_cases hk : name ∈ e.streams.map Prod.fst
  · rw [if_neg (by simp [h, hk])]
  · rw [if_pos (Or.inr hk)]
    exact mapGet_eq_none_of_not_mem _ _ hk

theorem register_touched (e : EngineState) (n : String) (s : Stream) :
    (e.register n s).1.touched =
      if n ∈ e.touched then e.touched else e.touched ++ [n] := by
  simp only [EngineState.register]
  cases h : mapGet e.streams n <;> simp [h, EngineState.releaseStreamNotes]

theorem register_streams_self (e : EngineState) (n : String) (s : Stream) :
    (mapGet (e.register n s).1.streams n).isSome = true := by
  simp only [EngineState.register]
  cases h : mapGet e.streams n <;>
    simp [h, EngineState.releaseStreamNotes, mapGet_mapSet_self]

theorem register_streams_other (e : EngineState) (n : String) (s : Stream)
    (x : String) (hx : x ≠ n) :
    mapGet (e.register n s).1.streams x = mapGet e.streams x := by
  simp only [EngineState.register]
  cases h : mapGet e.streams n <;>
    simp [h, EngineState.releaseStreamNotes, mapGet_mapSet_ne _ _ _ _ hx]

theorem runActions_touched (acts : List EvalAction) :
    ∀ (e : EngineState) (x : String),
      x ∈ (runActions e acts).1.touched ↔ x ∈ e.touched ∨ x ∈ actNames acts := by
  induction acts with
  | nil =>
    intro e x
    simp [runActions, actNames]
  | cons a rest ih =>
    intro e x
    cases a with
    | registerS n s =>
      show x ∈ (runActions (e.register n s).1 rest).1.touched ↔ _
      rw [ih]
      rw [register_touched]
      by_cases hn : n ∈ e.touched
      · rw [if_pos hn]
        constructor
        · rintro (h | h)
          · exact Or.inl h
          · exact Or.inr (by simp [actNames] at h ⊢; exact Or.inr h)
        · rintro (h | h)
          · exact Or.inl h
          · simp [actNames] at h
            rcases h with h | h
            · subst h
              exact Or.inl hn
            · exact Or.inr (by simp [actNames, h])
      · rw [if_neg hn]
        simp only [List.mem_append, List.mem_singleton, actNames, List.map_cons,
          List.mem_cons]
        tauto

theorem runActions_streams_preserved (acts : List EvalAction) :
    ∀ (e : EngineState) (x : String),
      (mapGet e.streams x).isSome = true →
      (mapGet (runActions e acts).1.streams x).isSome = true := by
  induction acts with
  | nil =>
    intro e x h
    exact h
  | cons a rest ih =>
    intro e x h
    cases a with
    | registerS n s =>
      show (mapGet (runActions (e.register n s).1 rest).1.streams x).isSome = true
      by_cases hx : x = n
      · subst hx
        exact ih _ x (register_streams_self e x s)
      · exact ih _ x (by rw [register_streams_other e n s x hx]; exact h)

theorem runActions_streams_of_mem (acts : List EvalAction) :
    ∀ (e : EngineState) (x : String), x ∈ actNames acts →
      (mapGet (runActions e acts).1.streams x).isSome = true := by
  induction acts with
  | nil =>
    intro e x h
    simp [actNames] at h
  | cons a rest ih =>
    intro e x h
    cases a with
    | registerS n s =>
      show (mapGet (runActions (e.register n s).1 rest).1.streams x).isSome = true
      by_cases hr : x ∈ actNames rest
      · exact ih _ x hr
      · have hx : x = n := by
          simp [actNames] at h
          rcases h with h | h
          · exact h
          · exact absurd (by simp [actNames, h]) hr
        subst hx
        exact runActions_streams_preserved rest _ x (register_streams_self e x s)

/-- C6 (amended): the reload bracket's cleanup (`endHotReload`) runs on
the error path exactly as on success — the failure path reaches the
same engine state and events as a successful run of the same performed
actions; streams registered before the throw remain bound afterwards.
However, previously registered streams that were not re-registered
before the failure are removed by that very cleanup (and their voices
released), rather than kept running. -/
theorem c6_eval_error_cleanup (e : EngineState) (acts : List EvalAction) :
    ((evaluateCode e acts true).1 = (evaluateCode e acts false).1 ∧
      (evaluateCode e acts true).2.1 = (evaluateCode e acts false).2.1) ∧
    (∀ name, name ∈ actNames acts →
      (mapGet (evaluateCode e acts true).1.streams name).isSome = true) ∧
    (∀ name, ¬ name ∈ actNames acts →
      mapGet (evaluateCode e acts true).1.streams name = none) := by
  refine ⟨⟨rfl, rfl⟩, ?_, ?_⟩
  · intro name hmem
    show (mapGet ((runActions e.beginHotReload acts).1.endHotReload).1.streams
      name).isSome = true
    have htouch : name ∈ (runActions e.beginHotReload acts).1.touched :=
      (runActions_touched acts e.beginHotReload name).mpr (Or.inr hmem)
    rw [endHotReload_mapGet, if_pos (Or.inl htouch)]
    exact runActions_streams_of_mem acts e.beginHotReload name hmem
  · intro name hmem
    show mapGet ((runActions e.beginHotReload acts).1.endHotReload).1.streams
      name = none
    have htouch : ¬ name ∈ (runActions e.beginHotReload acts).1.touched := by
      rw [runActions_touched]
      rintro (h | h)
      · simp [EngineState.beginHotReload] at h
      · exact hmem h
    exact endHotReload_untouched _ _ htouch

/-- C6 counterexample: an engine with a running stream `"a"` (one
sounding voice) evaluates a program that throws immediately; the result
is a failed attempt after which `"a"` is no longer registered and its
voice has been released — the previously running stream does not keep
running with its state intact. -/
theorem c6_counterexample :
    mapGet engineWithVoice.streams "a" = some boundStream ∧
    (evaluateCode engineWithVoice [] true).2.2 = false ∧
    mapGet (evaluateCode engineWithVoice [] true).1.streams "a" = none ∧
    (evaluateCode engineWithVoice [] true).2.1 = [EngineEvent.release 0] := by
  exact ⟨rfl, rfl, rfl, rfl⟩

/-- C6 witness: a failing program that did register `"b"` first: `"b"`
stays bound after the error path, while the untouched `"a"` is removed. -/
theorem c6_witness :
    (mapGet (evaluateCode engineWithVoice
        [EvalAction.registerS "b" gateNaNStream] true).1.streams "b").isSome
      = true ∧
    mapGet (evaluateCode engineWithVoice
        [EvalAction.registerS "b" gateNaNStream] true).1.streams "a" = none :=
  ⟨(c6_eval_error_cleanup engineWithVoice
      [EvalAction.registerS "b" gateNaNStream]).2.1 "b" (by simp [actNames]),
   (c6_eval_error_cleanup engineWithVoice
      [EvalAction.registerS "b" gateNaNStream]).2.2 "a" (by simp [actNames])⟩

/-! ## Voice release lemmas -/

theorem mem_flatten_releases (an : List (String × List ActiveNote))
    (name : String) (h : Handle)
    (hm : h ∈ streamHandles an name) :
    EngineEvent.release h ∈
      (an.map (fun p =>
        (p.2.flatMap (fun a => a.handles)).map EngineEvent.release)).flatten := by
  induction an with
  | nil => simp [streamHandles, mapGet] at hm
  | cons p rest ih =>
    simp only [List.map_cons, List.flatten_cons, List.mem_append]
    by_cases hk : p.1 = name
    · left
      have hsh : streamHandles (p :: rest) name =
          p.2.flatMap (fun a => a.handles) := by
        simp [streamHandles, mapGet, hk]
      rw [hsh] at hm
      exact List.mem_map_of_mem _ hm
    · right
      apply ih
      simpa [streamHandles, mapGet, hk] using hm

/-- C9 (amended): explicit stop of a named Stream, hush, and engine
shutdown each synchronously release every outstanding voice for the
affected Stream(s) — `stop` and `hush` emit a release for every
recorded handle and clear the records, `shutdown` sends all-notes-off
to every sink and clears the records.  (The claim's universal form over
"any operation that removes a Stream" fails: `unregister` removes the
binding without releasing voices.) -/
theorem c9_release_on_removal :
    (∀ (e : EngineState) (name : String) (h : Handle),
      h ∈ streamHandles e.activeNotes name →
        EngineEvent.release h ∈ (e.stop name).2) ∧
    (∀ (e : EngineState) (name : String),
      mapGet (e.stop name).1.activeNotes name = none ∧
      mapGet (e.stop name).1.streams name = none) ∧
    (∀ (e : EngineState) (name : String) (h : Handle),
      h ∈ streamHandles e.activeNotes name →
        EngineEvent.release h ∈ (e.hush).2) ∧
    (∀ e : EngineState, (e.hush).1.activeNotes = [] ∧ (e.hush).1.streams = []) ∧
    (∀ (e : EngineState) (i : ℕ), i < e.sinks →
      EngineEvent.allNotesOff i ∈ (e.shutdown).2) ∧
    (∀ e : EngineState, (e.shutdown).1.activeNotes = [] ∧
      (e.shutdown).1.running = false) := by
  refine ⟨?_, ?_, ?_, fun e => ⟨rfl, rfl⟩, ?_, fun e => ⟨rfl, rfl⟩⟩
  · intro e name h hm
    exact List.mem_map_of_mem _ hm
  · intro e name
    exact ⟨mapGet_mapDelete_self _ _, mapGet_mapDelete_self _ _⟩
  · intro e name h hm
    exact mem_flatten_releases e.activeNotes name h hm
  · intro e i hi
    exact List.mem_map_of_mem _ (List.mem_range.mpr hi)

/-- C9 counterexample: `unregister` removes the Stream `"a"` from the
engine while emitting no release, leaving its voice handle 0 recorded
as active — a voice outliving its owning Stream. -/
theorem c9_counterexample :
    mapGet engineWithVoice.streams "a" = some boundStream ∧
    (engineWithVoice.unregister "a").2 = [] ∧
    mapGet (engineWithVoice.unregister "a").1.streams "a" = none ∧
    mapGet (engineWithVoice.unregister "a").1.activeNotes "a" =
      some [{ note := 60, handles := [0], gateOpen := true }] :=
  ⟨rfl, rfl, rfl, rfl⟩

/-- C9 witness: on the concrete engine with one active voice handle 0
for `"a"` and one sink, `stop "a"` and `hush` both release handle 0,
and `shutdown` sends all-notes-off to sink 0. -/
theorem c9_witness :
    EngineEvent.release 0 ∈ (engineWithVoice.stop "a").2 ∧
    EngineEvent.release 0 ∈ (engineWithVoice.hush).2 ∧
    EngineEvent.allNotesOff 0 ∈ (engineWithVoice.shutdown).2 :=
  ⟨c9_release_on_removal.1 engineWithVoice "a" 0
      (by simp [streamHandles, mapGet, engineWithVoice]),
   c9_release_on_removal.2.2.1 engineWithVoice "a" 0
      (by simp [streamHandles, mapGet, engineWithVoice]),
   c9_release_on_removal.2.2.2.2.1 engineWithVoice 0
      (by simp [engineWithVoice])⟩

/-! ## Voice allocation -/

/-- C7 (amended): voice allocation scans channels 2–16 linearly and
allocates the first free channel; when none is free it evicts the
earliest-started active voice, sending its explicit note-off first, and
reuses that voice's channel.  The pool has 15 slots (channels 2–16), so
on an empty pool receiving sequential `noteOn` calls with no releases,
the 16th call is the one that evicts the earliest-started of the first
15 voices and reuses its channel. -/
theorem c7_oldest_eviction :
    (∀ (voices : List ActiveVoice) (stream : String) (note time : ℚ) (ch : ℕ),
      channelRange.find?
        (fun c => !(voices.map (fun v => v.channel)).contains c) = some ch →
      allocateChannel voices stream note time =
        (ch, voices ++ [⟨ch, note, stream, time⟩], [])) ∧
    (∀ (voices : List ActiveVoice) (stream : String) (note time : ℚ),
      channelRange.find?
        (fun c => !(voices.map (fun v => v.channel)).contains c) = none →
      voices ≠ [] →
      ∃ oldest, oldest ∈ voices ∧
        (∀ v ∈ voices, oldest.startTime ≤ v.startTime) ∧
        allocateChannel voices stream note time =
          (oldest.channel,
           (List.insertionSort byStart voices).tail ++
             [⟨oldest.channel, note, stream, time⟩],
           [MidiEvent.noteOff oldest.channel oldest.note])) ∧
    ((midiNoteOnRun [] c7calls).2.take 15).all (fun evs => evs.length = 1) = true ∧
    (midiNoteOnRun [] c7calls).2.getLast? =
      some [MidiEvent.noteOff 2 60, MidiEvent.noteOn 2 75 1] := by
  refine ⟨?_, ?_, by decide, by decide⟩
  · intro voices stream note time ch hfind
    simp only [allocateChannel]
    rw [hfind]
  · intro voices stream note time hfind hne
    simp only [allocateChannel]
    rw [hfind]
    have hperm := List.perm_insertionSort byStart voices
    have hsorted := List.sorted_insertionSort byStart voices
    cases hs : List.insertionSort byStart voices with
    | nil =>
      exfalso
      rw [hs] at hperm
      exact hne (List.perm_nil.mp hperm.symm)
    | cons oldest tail =>
      rw [hs] at hperm hsorted
      refine ⟨oldest, hperm.mem_iff.mp (List.mem_cons_self _ _), ?_, rfl⟩
      intro v hv
      rcases List.mem_cons.mp (hperm.mem_iff.mpr hv) with h | h
      · subst h
        exact le_refl _
      · exact List.rel_of_sorted_cons hsorted v h

/-- C7 counterexample: the channel pool has 15 slots (channels 2–16),
not 16, and on 16 sequential `noteOn` calls with no releases it is the
16th call — not the 17th — that evicts the earliest-started voice
(sending `noteOff` on its channel 2 first) and reuses that channel. -/
theorem c7_counterexample :
    channelRange.length = 15 ∧
    (midiNoteOnRun [] c7calls).2.length = 16 ∧
    (midiNoteOnRun [] c7calls).2.getLast? =
      some [MidiEvent.noteOff 2 60, MidiEvent.noteOn 2 75 1] := by
  refine ⟨by decide, by decide, by decide⟩

/-- C7 witness: on the empty pool the scan allocates channel 2, and on
the full 15-voice pool the allocator evicts the voice started at time 0
on channel 2, note-off first. -/
theorem c7_witness :
    (allocateChannel [] "s" 60 0 =
      (2, [⟨2, 60, "s", 0⟩], [])) ∧
    (∃ oldest, oldest ∈ fullPool ∧
      (∀ v ∈ fullPool, oldest.startTime ≤ v.startTime) ∧
      allocateChannel fullPool "s" 75 15 =
        (oldest.channel,
         (List.insertionSort byStart fullPool).tail ++
           [⟨oldest.channel, 75, "s", 15⟩],
         [MidiEvent.noteOff oldest.channel oldest.note])) :=
  ⟨c7_oldest_eviction.1 [] "s" 60 0 2 (by decide),
   c7_oldest_eviction.2.1 fullPool "s" 75 15 (by decide) (by decide)⟩

end Canyons
